import Mathlib

/-!
# Verification of the alcohol-consumption data-preprocessing pipeline

A shallow embedding of `src/data_preprocessing.py`.

A pandas `DataFrame` is modelled as a `Table`: an ordered list of column
names together with an ordered list of rows.  A row is an association list
from column name to `Value`; a cell that is absent from the association
list reads as `Value.na`, matching the identification of "column missing
for this row" with `NaN` that `pd.concat` performs.

Fallible pandas operations are modelled with `Option`:
* `df[c]` on a missing column raises `KeyError` → `none`;
* `Series.between` comparing a string with an integer raises `TypeError`
  → `none`;
* boolean masking with a mask containing `NA` (produced by `.str.contains`
  on a non-string element) raises → `none`.
Operations that pandas defines totally (`== 1` on any value is `False`
for non-matching or missing values; `.str.extract` yields `NaN` on
non-string elements) are modelled totally.
-/

/-- A cell value: missing (`NaN`), an integer, or a string. -/
inductive Value where
  | na : Value
  | int (z : Int) : Value
  | str (s : String) : Value
deriving DecidableEq, Repr

/-- A row: an association list from column name to value. -/
abbrev Row := List (String × Value)

/-- Read a cell; an absent column reads as `Value.na` (pandas `NaN`). -/
def getV (r : Row) (c : String) : Value :=
  match r.find? (fun p => p.1 == c) with
  | some p => p.2
  | none => .na

/-- Column assignment at row level (`df[c] = v`): overwrite an existing
entry in place, otherwise append at the end. -/
def setV (r : Row) (c : String) (v : Value) : Row :=
  if (r.find? (fun p => p.1 == c)).isSome then
    r.map (fun p => if p.1 == c then (c, v) else p)
  else r ++ [(c, v)]

/-- A table: ordered column names and ordered rows. -/
structure Table where
  cols : List String
  rows : List Row
deriving DecidableEq, Repr

/-- The empty `pd.DataFrame()`. -/
def emptyTable : Table := ⟨[], []⟩

/-- `df[c] = v` at table level: the column is appended if new. -/
def setColumn (t : Table) (c : String) (v : Value) : Table :=
  ⟨if c ∈ t.cols then t.cols else t.cols ++ [c],
   t.rows.map (fun r => setV r c v)⟩

/-- `df.rename(columns={old: new})`. -/
def renameCol (t : Table) (old new : String) : Table :=
  ⟨t.cols.map (fun c => if c = old then new else c),
   t.rows.map (fun r => r.map (fun p => if p.1 = old then (new, p.2) else p))⟩

/-- The ordered age-column alias list of the source. -/
def age_column_candidates : List String := ["AGE2", "AGE3"]

/-- First-match-wins renaming of an age alias to `AGE` (the `for age_col
in age_column_candidates: ... break` loop). -/
def renameAge (t : Table) : Table :=
  match age_column_candidates.find? (fun c => c ∈ t.cols) with
  | some c => renameCol t c "AGE"
  | none => t

/-- `df[sel]` column projection: keep the listed columns, in list order. -/
def projectRow (sel : List String) (r : Row) : Row :=
  sel.map (fun c => (c, getV r c))

/-- `df[sel]` at table level. -/
def projectTable (sel : List String) (t : Table) : Table :=
  ⟨sel, t.rows.map (projectRow sel)⟩

/-- `pd.concat(ts, ignore_index=True)`: columns are unioned in order of
first appearance, rows concatenated; cells for columns a frame lacks read
as `na` via `getV`. -/
def concatTables (ts : List Table) : Table :=
  ⟨(ts.flatMap Table.cols).dedup, ts.flatMap Table.rows⟩

/-- A directory entry handed to the loader: the file name and the result
of `pd.read_csv` on it (`none` when parsing raised). -/
structure FileEntry where
  name : String
  parsed : Option Table
deriving DecidableEq, Repr

/-- `p.startswith`-style case-sensitive prefix test, char by char. -/
def strIsPrefixOf (p s : String) : Bool :=
  p.toList.isPrefixOf s.toList

/-- `s.endswith(post)`. -/
def strEndsWith (s post : String) : Bool :=
  post.toList.isSuffixOf s.toList

/-- `file.endswith(".txt") or file.endswith(".tsv")`. -/
def selectFile (name : String) : Bool :=
  strEndsWith name ".txt" || strEndsWith name ".tsv"

/-- Per-file processing inside the loader loop: tag the provenance column
`source_file` with the file name, then rename the first age alias. -/
def processFile (f : FileEntry) : Table :=
  renameAge (setColumn (f.parsed.getD emptyTable) "source_file" (.str f.name))

/-- `set(df.columns) - {"source_file"}` (a set: deduplicated). -/
def colsOf (t : Table) : List String :=
  t.cols.dedup.filter (fun c => c ≠ "source_file")

/-- The running common-column intersection update (`common_cols &= cols`,
starting from `None`). -/
def interCommon (common : Option (List String)) (t : Table) : Option (List String) :=
  match common with
  | none => some (colsOf t)
  | some cc => some (cc.filter (fun c => c ∈ colsOf t))

/-- Loader loop state: accumulated frames, running intersection, and the
console diagnostics printed so far. -/
structure LoadState where
  dfs : List Table
  common : Option (List String)
  logs : List String
deriving Repr

/-- One iteration of the loader's `for file in os.listdir(directory)`
loop: skip non-`.txt`/`.tsv` names; on a parse failure print a diagnostic
and continue; otherwise tag, rename, intersect and accumulate. -/
def loadStep (st : LoadState) (f : FileEntry) : LoadState :=
  if selectFile f.name then
    match f.parsed with
    | some _ =>
        let t := processFile f
        ⟨st.dfs ++ [t], interCommon st.common t, st.logs⟩
    | none => ⟨st.dfs, st.common, st.logs ++ ["Failed to read " ++ f.name]⟩
  else st

/-- The loader's loop state after processing the whole directory
listing, starting from `dfs = []`, `common_cols = None`, no logs. -/
def loaderState (files : List FileEntry) : LoadState :=
  files.foldl loadStep ⟨[], none, []⟩

/-- The final projection list of the loader:
`list(common_cols | {"AGE", "source_file"})`. -/
def finalColsList (cc : List String) : List String :=
  (cc ++ ["AGE", "source_file"]).dedup

/-- The loader `combine_common_columns_with_age`, over a directory
listing.  Returns the combined table together with the printed
diagnostics: `if not dfs or not common_cols` report and return an empty
frame, else project every frame onto the retained columns it has and
concatenate.  (`dfs = []` iff `common_cols is None`: the loop updates
both together, see `loaderState_dfs_nil_iff`; so the Python guard is the
`none`/`some []` match below.) -/
def combine_common_columns_with_age (files : List FileEntry) : Table × List String :=
  match (loaderState files).common with
  | none => (emptyTable, (loaderState files).logs ++ ["No compatible files found."])
  | some cc =>
      if cc = [] then
        (emptyTable, (loaderState files).logs ++ ["No compatible files found."])
      else
        (concatTables ((loaderState files).dfs.map
           (fun t => projectTable ((finalColsList cc).filter (fun c => c ∈ t.cols)) t)),
         (loaderState files).logs)

/-- Substring test at every suffix position. -/
def strContainsAux (pat : List Char) : List Char → Bool
  | [] => pat.isEmpty
  | c :: rest => pat.isPrefixOf (c :: rest) || strContainsAux pat rest

/-- `s.str.contains(pat)` for a literal pattern: substring test. -/
def strContains (s pat : String) : Bool :=
  strContainsAux pat.toList s.toList

/-- The recent-cohort mask on one provenance string:
`source_file.str.contains("2021|2022|2023")`. -/
def recentStr (s : String) : Bool :=
  strContains s "2021" || strContains s "2022" || strContains s "2023"

/-- The recent-cohort mask on a row's `source_file` value (defined on
strings; its non-string case is never used by `filter_age`, which fails
instead, see `ageMaskable`). -/
def recentRow (r : Row) : Bool :=
  match getV r "source_file" with
  | .str s => recentStr s
  | _ => false

/-- `AGE.between(lo, hi)` (inclusive) on an integer value; `NaN` compares
`False`.  The string case is never used by `filter_age` (see
`ageMaskable`). -/
def ageBetween (v : Value) (lo hi : Int) : Bool :=
  match v with
  | .int z => decide (lo ≤ z ∧ z ≤ hi)
  | _ => false

/-- Whether the two masks of `filter_age` evaluate without raising on a
row: `.str.contains` on a non-string element yields `NA` and the
subsequent boolean indexing raises, and `between` comparing a string cell
with an integer bound raises `TypeError`. -/
def ageMaskable (r : Row) : Bool :=
  (match getV r "source_file" with | .str _ => true | _ => false) &&
  (match getV r "AGE" with | .str _ => false | _ => true)

/-- The row test of the recent subset:
`recent_mask & df["AGE"].between(4, 7)`. -/
def keepRecent (r : Row) : Bool :=
  recentRow r && ageBetween (getV r "AGE") 4 7

/-- The row test of the older subset:
`~recent_mask & df["AGE"].between(7, 13)`. -/
def keepOlder (r : Row) : Bool :=
  !recentRow r && ageBetween (getV r "AGE") 7 13

/-- The age filter `filter_age`.  `none` models a raised exception:
`KeyError` when `source_file` or `AGE` is absent, or a mask evaluation
error on some row (see `ageMaskable`). -/
def filter_age (t : Table) : Option Table :=
  if ("source_file" ∈ t.cols ∧ "AGE" ∈ t.cols) ∧ t.rows.all ageMaskable then
    some ⟨t.cols, t.rows.filter keepRecent ++ t.rows.filter keepOlder⟩
  else none

/-- The fixed prefix tuple of `filter_cols`. -/
def col_prefixes : List String :=
  ["ALC", "ALD", "UAD", "AGE", "FILEDATE", "IRSEX", "source_file", "AL30"]

/-- `col.startswith(tuple)`: case-sensitive prefix match. -/
def keepCol (c : String) : Bool :=
  col_prefixes.any (fun p => strIsPrefixOf p c)

/-- Digit test for the year regex. -/
def isDigitChar (c : Char) : Bool := '0' ≤ c && c ≤ '9'

/-- Whether the regex `20\d{2}` matches at the head of `l`. -/
def yearAt (l : List Char) : Bool :=
  match l with
  | '2' :: '0' :: c :: d :: _ => isDigitChar c && isDigitChar d
  | _ => false

/-- Leftmost match of `(20\d{2})` in a character list. -/
def extractYearChars : List Char → Option String
  | [] => none
  | c :: rest =>
      if yearAt (c :: rest) then
        some (String.mk ((c :: rest).take 4))
      else extractYearChars rest

/-- `s.str.extract(r"(20\d{2})")` on one string: the leftmost four-digit
substring starting with `20`, else missing. -/
def extractYear (s : String) : Option String := extractYearChars s.toList

/-- The derived `year` cell of a row: `.str.extract` yields `NaN` on a
non-string element, and `NaN` when the pattern does not match. -/
def yearOfRow (r : Row) : Value :=
  match getV r "source_file" with
  | .str s => (extractYear s).elim Value.na Value.str
  | _ => .na

/-- The `ALCEVER == 1 | ALCEVER == 2` row test (`==` on pandas never
raises: a missing or non-matching value compares `False`). -/
def alcOK (r : Row) : Bool :=
  getV r "ALCEVER" == Value.int 1 || getV r "ALCEVER" == Value.int 2

/-- The per-row transformation of `filter_cols`: project onto the
prefix-retained columns, then assign the derived `year` column. -/
def colsTransform (sel : List String) (r : Row) : Row :=
  setV (projectRow sel r) "year" (yearOfRow r)

/-- The column/value filter `filter_cols`.  `none` models the `KeyError`
raised by `df_filtered["source_file"]` or `df_filtered["ALCEVER"]` when
the column is absent. -/
def filter_cols (t : Table) : Option Table :=
  if "source_file" ∈ t.cols.filter keepCol ∧ "ALCEVER" ∈ t.cols.filter keepCol then
    some ⟨if "year" ∈ t.cols.filter keepCol then t.cols.filter keepCol
          else t.cols.filter keepCol ++ ["year"],
          (t.rows.map (colsTransform (t.cols.filter keepCol))).filter alcOK⟩
  else none

/-- The orchestrator `preprocess_data`, over the listing of the fixed
input directory.  `none` models an uncaught exception in a stage. -/
def preprocess_data (files : List FileEntry) : Option Table :=
  (filter_age (combine_common_columns_with_age files).1).bind filter_cols

theorem getV_nil (c : String) : getV [] c = .na := rfl

theorem getV_cons (p : String × Value) (r : Row) (c : String) :
    getV (p :: r) c = if p.1 = c then p.2 else getV r c := by
  by_cases h : p.1 = c <;> simp [getV, List.find?_cons, h]

theorem getV_overwrite_ne (r : Row) (c c' : String) (v : Value) (h : c' ≠ c) :
    getV (r.map (fun p => if p.1 == c then (c, v) else p)) c' = getV r c' := by
  induction r with
  | nil => rfl
  | cons p r ih =>
      by_cases hp : p.1 = c
      · simp only [List.map_cons, hp, beq_self_eq_true, if_true, getV_cons]
        rw [if_neg (fun hc => h hc.symm), if_neg (fun hc => h hc.symm), ih]
      · simp only [List.map_cons, beq_eq_false_iff_ne.2 hp, Bool.false_eq_true, if_false,
          getV_cons, ih]

theorem getV_overwrite_self (r : Row) (c : String) (v : Value)
    (h : (r.find? (fun p => p.1 == c)).isSome) :
    getV (r.map (fun p => if p.1 == c then (c, v) else p)) c = v := by
  induction r with
  | nil => simp at h
  | cons p r ih =>
      by_cases hp : p.1 = c
      · simp only [List.map_cons, hp, beq_self_eq_true, if_true, getV_cons, if_pos rfl]
      · have hp' : (p.1 == c) = false := beq_eq_false_iff_ne.2 hp
        rw [List.find?_cons, hp'] at h
        simp only [List.map_cons, hp', Bool.false_eq_true, if_false, getV_cons, if_neg hp]
        exact ih h

theorem getV_append_single_ne (r : Row) (c c' : String) (v : Value) (h : c ≠ c') :
    getV (r ++ [(c, v)]) c' = getV r c' := by
  induction r with
  | nil => simp [getV_cons, if_neg h, getV_nil, List.nil_append]
  | cons p r ih => simp only [List.cons_append, getV_cons, ih]

theorem getV_append_of_none (r : Row) (c : String) (v : Value)
    (h : r.find? (fun p => p.1 == c) = none) :
    getV (r ++ [(c, v)]) c = v := by
  induction r with
  | nil => simp [getV_cons]
  | cons p r ih =>
      rw [List.find?_cons] at h
      by_cases hp : p.1 = c
      · rw [beq_iff_eq.2 hp] at h; simp at h
      · rw [beq_eq_false_iff_ne.2 hp] at h
        simp only [List.cons_append, getV_cons, if_neg hp]
        exact ih h

theorem getV_setV_self (r : Row) (c : String) (v : Value) :
    getV (setV r c v) c = v := by
  unfold setV
  by_cases h : (r.find? (fun p => p.1 == c)).isSome
  · rw [if_pos h]; exact getV_overwrite_self r c v h
  · rw [if_neg h]
    cases hfind : r.find? (fun p => p.1 == c) with
    | none => exact getV_append_of_none r c v hfind
    | some p => rw [hfind] at h; simp at h

theorem getV_setV_ne (r : Row) (c c' : String) (v : Value) (h : c' ≠ c) :
    getV (setV r c v) c' = getV r c' := by
  unfold setV
  by_cases hf : (r.find? (fun p => p.1 == c)).isSome
  · rw [if_pos hf]; exact getV_overwrite_ne r c c' v h
  · rw [if_neg hf]; exact getV_append_single_ne r c c' v (fun hc => h hc.symm)

theorem getV_rename_ne (r : Row) (old new c : String) (h1 : c ≠ old) (h2 : c ≠ new) :
    getV (r.map (fun p => if p.1 = old then (new, p.2) else p)) c = getV r c := by
  induction r with
  | nil => rfl
  | cons p r ih =>
      by_cases hp : p.1 = old
      · simp only [List.map_cons, hp, if_true, getV_cons]
        rw [if_neg (fun hc => h2 hc.symm), if_neg (fun hc => h1 hc.symm), ih]
      · simp only [List.map_cons, hp, if_false, getV_cons, ih]

theorem getV_projectRow (sel : List String) (r : Row) (c : String) (h : c ∈ sel) :
    getV (projectRow sel r) c = getV r c := by
  induction sel with
  | nil => simp at h
  | cons s sel ih =>
      simp only [projectRow, List.map_cons, getV_cons]
      by_cases hs : s = c
      · rw [if_pos hs, hs]
      · rw [if_neg hs]
        rcases List.mem_cons.1 h with h' | h'
        · exact absurd h'.symm hs
        · exact ih h'

theorem recentRow_eq (r : Row) (s : String) (h : getV r "source_file" = .str s) :
    recentRow r = recentStr s := by unfold recentRow; rw [h]

theorem ageBetween_iff (v : Value) (lo hi : Int) :
    ageBetween v lo hi = true ↔ ∃ z : Int, v = .int z ∧ lo ≤ z ∧ z ≤ hi := by
  cases v <;> simp [ageBetween]

/-- C10: the age filter only drops rows: it keeps the column list intact,
every output row is literally a row of the input (so no cell of a
surviving row changes), and the relative input order is preserved within
the recent-cohort subset and within the other-cohort subset. -/
theorem filter_age_frame (t t' : Table) (h : filter_age t = some t') :
    t'.cols = t.cols ∧
    (∀ r ∈ t'.rows, r ∈ t.rows) ∧
    List.Sublist (t'.rows.filter recentRow) t.rows ∧
    List.Sublist (t'.rows.filter (fun r => !recentRow r)) t.rows := by
  unfold filter_age at h
  split at h
  case isFalse => exact absurd h (by simp)
  case isTrue hcond =>
    injection h with h
    subst h
    have hA : ∀ a ∈ t.rows.filter keepRecent, recentRow a = true := by
      intro a ha
      have hb := (List.mem_filter.1 ha).2
      simp only [keepRecent, Bool.and_eq_true] at hb
      exact hb.1
    have hB : ∀ a ∈ t.rows.filter keepOlder, recentRow a = false := by
      intro a ha
      have hb := (List.mem_filter.1 ha).2
      simp only [keepOlder, Bool.and_eq_true, Bool.not_eq_true'] at hb
      exact hb.1
    refine ⟨rfl, ?_, ?_, ?_⟩
    · intro r hr
      rcases List.mem_append.1 hr with h' | h'
      · exact (List.mem_filter.1 h').1
      · exact (List.mem_filter.1 h').1
    · have e1 : (t.rows.filter keepRecent).filter recentRow = t.rows.filter keepRecent :=
        List.filter_eq_self.2 hA
      have e2 : (t.rows.filter keepOlder).filter recentRow = [] :=
        List.filter_eq_nil_iff.2 (fun a ha => by simp [hB a ha])
      rw [List.filter_append, e1, e2, List.append_nil]
      exact List.filter_sublist _
    · have e1 : (t.rows.filter keepRecent).filter (fun r => !recentRow r) = [] :=
        List.filter_eq_nil_iff.2 (fun a ha => by simp [hA a ha])
      have e2 : (t.rows.filter keepOlder).filter (fun r => !recentRow r) =
          t.rows.filter keepOlder :=
        List.filter_eq_self.2 (fun a ha => by simp [hB a ha])
      rw [List.filter_append, e1, e2, List.nil_append]
      exact List.filter_sublist _

/-- C2 (amended): on a table whose `source_file` values are strings and
whose `AGE` values are numeric or missing, a row survives the age filter
iff its cohort-appropriate inclusive age range holds; a missing age fails
both ranges and the row is dropped. -/
theorem filter_age_membership (t : Table)
    (hs : "source_file" ∈ t.cols) (ha : "AGE" ∈ t.cols)
    (hstr : ∀ r ∈ t.rows, ∃ s, getV r "source_file" = Value.str s)
    (hnum : ∀ r ∈ t.rows, ∀ s, getV r "AGE" ≠ Value.str s) :
    ∃ t', filter_age t = some t' ∧
      ∀ r, r ∈ t'.rows ↔ r ∈ t.rows ∧
        ∃ s, getV r "source_file" = Value.str s ∧
          ((recentStr s = true ∧ ∃ z : Int, getV r "AGE" = .int z ∧ 4 ≤ z ∧ z ≤ 7) ∨
           (recentStr s = false ∧ ∃ z : Int, getV r "AGE" = .int z ∧ 7 ≤ z ∧ z ≤ 13)) := by
  have hmask : t.rows.all ageMaskable = true := by
    rw [List.all_eq_true]
    intro r hr
    obtain ⟨s, hs'⟩ := hstr r hr
    unfold ageMaskable
    rw [hs']
    cases hA : getV r "AGE" with
    | str s' => exact absurd hA (hnum r hr s')
    | na => rfl
    | int z => rfl
  refine ⟨⟨t.cols, t.rows.filter keepRecent ++ t.rows.filter keepOlder⟩, ?_, ?_⟩
  · unfold filter_age
    rw [if_pos ⟨⟨hs, ha⟩, hmask⟩]
  intro r
  show r ∈ t.rows.filter keepRecent ++ t.rows.filter keepOlder ↔ _
  constructor
  · intro hr
    rcases List.mem_append.1 hr with h' | h'
    · have hmem := (List.mem_filter.1 h').1
      have hb := (List.mem_filter.1 h').2
      simp only [keepRecent, Bool.and_eq_true] at hb
      obtain ⟨s, hs'⟩ := hstr r hmem
      refine ⟨hmem, s, hs', Or.inl ⟨?_, ?_⟩⟩
      · rw [← recentRow_eq r s hs']; exact hb.1
      · exact (ageBetween_iff _ _ _).1 hb.2
    · have hmem := (List.mem_filter.1 h').1
      have hb := (List.mem_filter.1 h').2
      simp only [keepOlder, Bool.and_eq_true, Bool.not_eq_true'] at hb
      obtain ⟨s, hs'⟩ := hstr r hmem
      refine ⟨hmem, s, hs', Or.inr ⟨?_, ?_⟩⟩
      · rw [← recentRow_eq r s hs']; exact hb.1
      · exact (ageBetween_iff _ _ _).1 hb.2
  · rintro ⟨hmem, s, hs', hcase⟩
    rcases hcase with ⟨hrec, z, hz, h1, h2⟩ | ⟨hrec, z, hz, h1, h2⟩
    · apply List.mem_append_left
      refine List.mem_filter.2 ⟨hmem, ?_⟩
      simp only [keepRecent, Bool.and_eq_true]
      exact ⟨by rw [recentRow_eq r s hs']; exact hrec,
             (ageBetween_iff _ _ _).2 ⟨z, hz, h1, h2⟩⟩
    · apply List.mem_append_right
      refine List.mem_filter.2 ⟨hmem, ?_⟩
      simp only [keepOlder, Bool.and_eq_true, Bool.not_eq_true']
      exact ⟨by rw [recentRow_eq r s hs']; exact hrec,
             (ageBetween_iff _ _ _).2 ⟨z, hz, h1, h2⟩⟩

/-- A table with a string-valued (non-numeric) `AGE` cell in its second
row; the first row is numeric and in the older cohort's range. -/
def tBadAge : Table :=
  ⟨["source_file", "AGE"],
   [[("source_file", Value.str "old.txt"), ("AGE", Value.int 9)],
    [("source_file", Value.str "old.txt"), ("AGE", Value.str "abc")]]⟩

/-- C2 counterexample: on a table holding a non-numeric (string) `AGE`
value, the age filter does not drop that row and keep the rest — the
masking comparison raises (`none`), so no row at all survives, although
the table has both required columns and a first row that the claim says
must survive. -/
theorem filter_age_nonnumeric_raises :
    ("source_file" ∈ tBadAge.cols ∧ "AGE" ∈ tBadAge.cols) ∧
    (∃ r ∈ tBadAge.rows, getV r "AGE" = Value.int 9 ∧ recentRow r = false ∧
      ageBetween (getV r "AGE") 7 13 = true) ∧
    filter_age tBadAge = none := by decide

/-- A well-formed two-row table: one recent-cohort row in range, one
older-cohort row in range. -/
def tAgeW : Table :=
  ⟨["source_file", "AGE"],
   [[("source_file", Value.str "x2022.txt"), ("AGE", Value.int 5)],
    [("source_file", Value.str "old.txt"), ("AGE", Value.int 9)]]⟩

/-- Witness for `filter_age_membership` at `tAgeW`. -/
theorem filter_age_membership_witness :
    ("source_file" ∈ tAgeW.cols ∧ "AGE" ∈ tAgeW.cols) ∧
    (∃ t', filter_age tAgeW = some t' ∧
      ∀ r, r ∈ t'.rows ↔ r ∈ tAgeW.rows ∧
        ∃ s, getV r "source_file" = Value.str s ∧
          ((recentStr s = true ∧ ∃ z : Int, getV r "AGE" = .int z ∧ 4 ≤ z ∧ z ≤ 7) ∨
           (recentStr s = false ∧ ∃ z : Int, getV r "AGE" = .int z ∧ 7 ≤ z ∧ z ≤ 13))) :=
  ⟨⟨by decide, by decide⟩,
   filter_age_membership tAgeW (by decide) (by decide)
     (by intro r hr; fin_cases hr <;> exact ⟨_, rfl⟩)
     (by intro r hr; fin_cases hr <;> (intro s h; exact Value.noConfusion h))⟩

/-- Witness for `filter_age_frame` at `tAgeW`. -/
theorem filter_age_frame_witness :
    ∃ t', filter_age tAgeW = some t' ∧
      (t'.cols = tAgeW.cols ∧
       (∀ r ∈ t'.rows, r ∈ tAgeW.rows) ∧
       List.Sublist (t'.rows.filter recentRow) tAgeW.rows ∧
       List.Sublist (t'.rows.filter (fun r => !recentRow r)) tAgeW.rows) :=
  ⟨⟨tAgeW.cols, tAgeW.rows⟩, by decide,
   filter_age_frame tAgeW ⟨tAgeW.cols, tAgeW.rows⟩ (by decide)⟩

theorem getV_colsTransform_ne (sel : List String) (r : Row) (c : String)
    (hc : c ≠ "year") (hmem : c ∈ sel) :
    getV (colsTransform sel r) c = getV r c := by
  unfold colsTransform
  rw [getV_setV_ne _ _ _ _ hc, getV_projectRow sel r c hmem]

theorem filter_map_commute (f : Row → Row) (p : Row → Bool) (l : List Row)
    (h : ∀ r, p (f r) = p r) :
    (l.map f).filter p = (l.filter p).map f := by
  induction l with
  | nil => rfl
  | cons a l ih =>
      simp only [List.map_cons, List.filter_cons, h a]
      split <;> simp [ih]

/-- C1: when the input table has an `ALCEVER` column and the column/value
filter runs without a lookup error, every surviving row carries `ALCEVER`
exactly `1` or exactly `2`, and the output rows are exactly the
(projected, `year`-tagged) images of the input rows whose `ALCEVER` is
`1` or `2` — rows with a missing, absent or other value are dropped. -/
theorem filter_cols_value (t t' : Table) (_hA : "ALCEVER" ∈ t.cols)
    (h : filter_cols t = some t') :
    (∀ r ∈ t'.rows,
       getV r "ALCEVER" = Value.int 1 ∨ getV r "ALCEVER" = Value.int 2) ∧
    t'.rows = (t.rows.filter alcOK).map (colsTransform (t.cols.filter keepCol)) := by
  unfold filter_cols at h
  split at h
  case isFalse => exact absurd h (by simp)
  case isTrue hcond =>
    injection h with h
    subst h
    have hAsel : "ALCEVER" ∈ t.cols.filter keepCol := hcond.2
    have hstable : ∀ r, alcOK (colsTransform (t.cols.filter keepCol) r) = alcOK r := by
      intro r
      unfold alcOK
      rw [getV_colsTransform_ne _ _ _ (by decide) hAsel]
    constructor
    · intro r hr
      have hmem := List.mem_filter.1 hr
      have hok := hmem.2
      unfold alcOK at hok
      rcases Bool.or_eq_true_iff.1 hok with h' | h'
      · exact Or.inl (by simpa using h')
      · exact Or.inr (by simpa using h')
    · exact filter_map_commute _ _ _ hstable

/-- A small table on which `filter_cols` succeeds. -/
def tColsW : Table :=
  ⟨["ALCEVER", "BAD", "source_file"],
   [[("ALCEVER", Value.int 1), ("BAD", Value.int 7), ("source_file", Value.str "2022.txt")],
    [("ALCEVER", Value.int 3), ("BAD", Value.int 8), ("source_file", Value.str "2022.txt")],
    [("ALCEVER", Value.na), ("BAD", Value.int 9), ("source_file", Value.str "old.txt")]]⟩

/-- Witness for `filter_cols_value` at `tColsW`. -/
theorem filter_cols_value_witness :
    ("ALCEVER" ∈ tColsW.cols ∧
      filter_cols tColsW =
        some ⟨["ALCEVER", "source_file", "year"],
              [[("ALCEVER", Value.int 1), ("source_file", Value.str "2022.txt"),
                ("year", Value.str "2022")]]⟩) ∧
    ((∀ r ∈ (⟨["ALCEVER", "source_file", "year"],
              [[("ALCEVER", Value.int 1), ("source_file", Value.str "2022.txt"),
                ("year", Value.str "2022")]]⟩ : Table).rows,
       getV r "ALCEVER" = Value.int 1 ∨ getV r "ALCEVER" = Value.int 2) ∧
     (⟨["ALCEVER", "source_file", "year"],
       [[("ALCEVER", Value.int 1), ("source_file", Value.str "2022.txt"),
         ("year", Value.str "2022")]]⟩ : Table).rows =
       (tColsW.rows.filter alcOK).map (colsTransform (tColsW.cols.filter keepCol))) :=
  ⟨⟨by decide, by decide⟩, filter_cols_value tColsW _ (by decide) (by decide)⟩

/-- The selected directory entries that parsed, in listing order. -/
def parsedEntries (files : List FileEntry) : List FileEntry :=
  files.filter (fun f => selectFile f.name && f.parsed.isSome)

/-- The processed (tagged, age-renamed) frames accumulated by the loop. -/
def parsedTables (files : List FileEntry) : List Table :=
  (parsedEntries files).map processFile

/-- The diagnostics for selected entries that failed to parse. -/
def failLogs (files : List FileEntry) : List String :=
  (files.filter (fun f => selectFile f.name && f.parsed.isNone)).map
    (fun f => "Failed to read " ++ f.name)

theorem loadStep_parsed (st : LoadState) (f : FileEntry)
    (hsel : selectFile f.name = true) (t : Table) (hp : f.parsed = some t) :
    loadStep st f =
      ⟨st.dfs ++ [processFile f], interCommon st.common (processFile f), st.logs⟩ := by
  simp [loadStep, hsel, hp]

theorem loadStep_failed (st : LoadState) (f : FileEntry)
    (hsel : selectFile f.name = true) (hp : f.parsed = none) :
    loadStep st f = ⟨st.dfs, st.common, st.logs ++ ["Failed to read " ++ f.name]⟩ := by
  simp [loadStep, hsel, hp]

theorem loadStep_skip (st : LoadState) (f : FileEntry)
    (hsel : selectFile f.name = false) :
    loadStep st f = st := by
  simp [loadStep, hsel]

theorem foldl_loadStep_spec (files : List FileEntry) : ∀ st : LoadState,
    (files.foldl loadStep st).dfs = st.dfs ++ parsedTables files ∧
    (files.foldl loadStep st).common = (parsedTables files).foldl interCommon st.common ∧
    (files.foldl loadStep st).logs = st.logs ++ failLogs files := by
  induction files with
  | nil =>
      intro st
      simp [parsedTables, parsedEntries, failLogs]
  | cons f files ih =>
      intro st
      by_cases hsel : selectFile f.name = true
      · cases hp : f.parsed with
        | some t =>
            have hpt : parsedTables (f :: files) = processFile f :: parsedTables files := by
              simp [parsedTables, parsedEntries, hsel, hp]
            have hfl : failLogs (f :: files) = failLogs files := by
              simp [failLogs, hsel, hp]
            have hstep := loadStep_parsed st f hsel t hp
            obtain ⟨h1, h2, h3⟩ :=
              ih ⟨st.dfs ++ [processFile f], interCommon st.common (processFile f), st.logs⟩
            refine ⟨?_, ?_, ?_⟩
            · rw [List.foldl_cons, hstep, h1, hpt]
              simp
            · rw [List.foldl_cons, hstep, h2, hpt, List.foldl_cons]
            · rw [List.foldl_cons, hstep, h3, hfl]
        | none =>
            have hpt : parsedTables (f :: files) = parsedTables files := by
              simp [parsedTables, parsedEntries, hsel, hp]
            have hfl : failLogs (f :: files) =
                ("Failed to read " ++ f.name) :: failLogs files := by
              simp [failLogs, hsel, hp]
            have hstep := loadStep_failed st f hsel hp
            obtain ⟨h1, h2, h3⟩ :=
              ih ⟨st.dfs, st.common, st.logs ++ ["Failed to read " ++ f.name]⟩
            refine ⟨?_, ?_, ?_⟩
            · rw [List.foldl_cons, hstep, h1, hpt]
            · rw [List.foldl_cons, hstep, h2, hpt]
            · rw [List.foldl_cons, hstep, h3, hfl]
              simp
      · have hsel' : selectFile f.name = false := by simpa using hsel
        have hpt : parsedTables (f :: files) = parsedTables files := by
          simp [parsedTables, parsedEntries, hsel']
        have hfl : failLogs (f :: files) = failLogs files := by
          simp [failLogs, hsel']
        obtain ⟨h1, h2, h3⟩ := ih st
        exact ⟨by rw [List.foldl_cons, loadStep_skip st f hsel', h1, hpt],
               by rw [List.foldl_cons, loadStep_skip st f hsel', h2, hpt],
               by rw [List.foldl_cons, loadStep_skip st f hsel', h3, hfl]⟩

theorem loaderState_dfs (files : List FileEntry) :
    (loaderState files).dfs = parsedTables files :=
  (foldl_loadStep_spec files _).1

theorem loaderState_common (files : List FileEntry) :
    (loaderState files).common = (parsedTables files).foldl interCommon none :=
  (foldl_loadStep_spec files _).2.1

theorem loaderState_logs (files : List FileEntry) :
    (loaderState files).logs = failLogs files :=
  (foldl_loadStep_spec files _).2.2

theorem foldl_interCommon_some (ts : List Table) : ∀ cc : List String,
    ∃ dd, ts.foldl interCommon (some cc) = some dd ∧
      ∀ c, c ∈ dd ↔ c ∈ cc ∧ ∀ t ∈ ts, c ∈ colsOf t := by
  induction ts with
  | nil => exact fun cc => ⟨cc, rfl, by simp⟩
  | cons t ts ih =>
      intro cc
      obtain ⟨dd, h1, h2⟩ := ih (cc.filter (fun c => c ∈ colsOf t))
      refine ⟨dd, by rw [List.foldl_cons]; exact h1, ?_⟩
      intro c
      rw [h2 c, List.mem_filter]
      simp only [decide_eq_true_eq, List.mem_cons]
      constructor
      · rintro ⟨⟨hcc, hct⟩, hts⟩
        exact ⟨hcc, fun t' ht' => by
          rcases ht' with rfl | h'
          · exact hct
          · exact hts t' h'⟩
      · rintro ⟨hcc, hall⟩
        exact ⟨⟨hcc, hall t (Or.inl rfl)⟩, fun t' ht' => hall t' (Or.inr ht')⟩

theorem loaderState_common_none_iff (files : List FileEntry) :
    (loaderState files).common = none ↔ parsedTables files = [] := by
  rw [loaderState_common]
  cases hts : parsedTables files with
  | nil => simp
  | cons t ts =>
      simp only [List.foldl_cons, interCommon]
      obtain ⟨dd, h1, _⟩ := foldl_interCommon_some ts (colsOf t)
      simp [h1]

theorem loaderState_dfs_nil_iff (files : List FileEntry) :
    (loaderState files).dfs = [] ↔ (loaderState files).common = none := by
  rw [loaderState_dfs, loaderState_common_none_iff]

theorem loaderState_common_mem (files : List FileEntry) (cc : List String)
    (h : (loaderState files).common = some cc) :
    parsedTables files ≠ [] ∧
    ∀ c, c ∈ cc ↔ ∀ t ∈ parsedTables files, c ∈ colsOf t := by
  have hne : parsedTables files ≠ [] := by
    intro hnil
    rw [← loaderState_common_none_iff] at hnil
    rw [hnil] at h
    cases h
  refine ⟨hne, ?_⟩
  rw [loaderState_common] at h
  cases hts : parsedTables files with
  | nil => exact absurd hts hne
  | cons t ts =>
      rw [hts, List.foldl_cons] at h
      simp only [interCommon] at h
      obtain ⟨dd, h1, h2⟩ := foldl_interCommon_some ts (colsOf t)
      rw [h1] at h
      injection h with h
      subst h
      intro c
      rw [h2 c]
      constructor
      · rintro ⟨hct, hts'⟩ t' ht'
        rcases List.mem_cons.1 ht' with rfl | h'
        · exact hct
        · exact hts' t' h'
      · intro hall
        exact ⟨hall t (List.mem_cons_self t ts), fun t' ht' => hall t' (List.mem_cons_of_mem t ht')⟩

/-- C5: when no input file is successfully parsed, or the parsed files
share no common columns, the loader emits the no-compatible-files
diagnostic and returns an empty table. -/
theorem combine_no_compatible (files : List FileEntry)
    (h : parsedTables files = [] ∨ (loaderState files).common = some []) :
    (combine_common_columns_with_age files).1 = emptyTable ∧
    "No compatible files found." ∈ (combine_common_columns_with_age files).2 := by
  unfold combine_common_columns_with_age
  rcases h with h | h
  · rw [(loaderState_common_none_iff files).2 h]
    exact ⟨rfl, by simp⟩
  · rw [h]
    simp

/-- Witness for `combine_no_compatible`: two parsable files with disjoint
column sets — the intersection is empty. -/
def disjointFiles : List FileEntry :=
  [⟨"a.txt", some ⟨["A"], [[("A", Value.int 1)]]⟩⟩,
   ⟨"b.txt", some ⟨["B"], [[("B", Value.int 2)]]⟩⟩]

theorem combine_no_compatible_witness :
    (parsedTables disjointFiles = [] ∨ (loaderState disjointFiles).common = some []) ∧
    ((combine_common_columns_with_age disjointFiles).1 = emptyTable ∧
     "No compatible files found." ∈ (combine_common_columns_with_age disjointFiles).2) :=
  ⟨Or.inr (by decide), combine_no_compatible disjointFiles (Or.inr (by decide))⟩

theorem keepCol_iff (c : String) :
    keepCol c = true ↔ ∃ p ∈ col_prefixes, strIsPrefixOf p c = true := by
  simp [keepCol, List.any_eq_true]

theorem year_not_in_sel (cols : List String) : "year" ∉ cols.filter keepCol := by
  intro hmem
  exact absurd (List.mem_filter.1 hmem).2 (by decide)

/-- C3 (amended): every column of the output of the column/value filter
other than the derived `year` column is an input column starting with one
of the eight fixed prefixes, and every input column starting with one of
the prefixes survives into the output.  (The original claim fails: the
derived `year` column is part of the output and starts with none of the
prefixes, see `filter_cols_year_column`.) -/
theorem filter_cols_prefix_retention (t t' : Table) (h : filter_cols t = some t') :
    (∀ c ∈ t'.cols, c = "year" ∨
       (c ∈ t.cols ∧ ∃ p ∈ col_prefixes, strIsPrefixOf p c = true)) ∧
    (∀ c ∈ t.cols, (∃ p ∈ col_prefixes, strIsPrefixOf p c = true) → c ∈ t'.cols) := by
  unfold filter_cols at h
  split at h
  case isFalse => exact absurd h (by simp)
  case isTrue hcond =>
    injection h with h
    subst h
    have hy := year_not_in_sel t.cols
    constructor
    · intro c hc
      rw [show (⟨if "year" ∈ t.cols.filter keepCol then t.cols.filter keepCol
                 else t.cols.filter keepCol ++ ["year"],
                 (t.rows.map (colsTransform (t.cols.filter keepCol))).filter alcOK⟩ : Table).cols
            = t.cols.filter keepCol ++ ["year"] from by rw [if_neg hy]] at hc
      rcases List.mem_append.1 hc with h' | h'
      · have := List.mem_filter.1 h'
        exact Or.inr ⟨this.1, (keepCol_iff c).1 this.2⟩
      · exact Or.inl (List.mem_singleton.1 h')
    · intro c hc hp
      rw [show (⟨if "year" ∈ t.cols.filter keepCol then t.cols.filter keepCol
                 else t.cols.filter keepCol ++ ["year"],
                 (t.rows.map (colsTransform (t.cols.filter keepCol))).filter alcOK⟩ : Table).cols
            = t.cols.filter keepCol ++ ["year"] from by rw [if_neg hy]]
      exact List.mem_append_left _ (List.mem_filter.2 ⟨hc, (keepCol_iff c).2 hp⟩)

/-- C3 counterexample: on a concrete two-column table the column/value
filter succeeds and its output contains the derived column `year`, whose
name starts with none of the eight fixed prefixes. -/
theorem filter_cols_year_column :
    filter_cols (⟨["ALCEVER", "source_file"],
        [[("ALCEVER", Value.int 1), ("source_file", Value.str "a.txt")]]⟩ : Table) =
      some ⟨["ALCEVER", "source_file", "year"],
            [[("ALCEVER", Value.int 1), ("source_file", Value.str "a.txt"),
              ("year", Value.na)]]⟩ ∧
    "year" ∈ (["ALCEVER", "source_file", "year"] : List String) ∧
    (∀ p ∈ col_prefixes, strIsPrefixOf p "year" = false) := by decide

/-- Witness for `filter_cols_prefix_retention` at `tColsW`. -/
theorem filter_cols_prefix_retention_witness :
    filter_cols tColsW =
      some ⟨["ALCEVER", "source_file", "year"],
            [[("ALCEVER", Value.int 1), ("source_file", Value.str "2022.txt"),
              ("year", Value.str "2022")]]⟩ ∧
    ((∀ c ∈ (⟨["ALCEVER", "source_file", "year"],
              [[("ALCEVER", Value.int 1), ("source_file", Value.str "2022.txt"),
                ("year", Value.str "2022")]]⟩ : Table).cols, c = "year" ∨
        (c ∈ tColsW.cols ∧ ∃ p ∈ col_prefixes, strIsPrefixOf p c = true)) ∧
     (∀ c ∈ tColsW.cols, (∃ p ∈ col_prefixes, strIsPrefixOf p c = true) →
        c ∈ (⟨["ALCEVER", "source_file", "year"],
              [[("ALCEVER", Value.int 1), ("source_file", Value.str "2022.txt"),
                ("year", Value.str "2022")]]⟩ : Table).cols)) :=
  ⟨by decide, filter_cols_prefix_retention tColsW _ (by decide)⟩

/-- C4 (amended): whenever the loader takes its recoverable error path
(no file parsed, or empty common-column intersection), the loader itself
returns an empty table with the no-compatible-files diagnostic, but
`preprocess_data` does not return that table to its caller: the age
filter then performs `df["source_file"]` on the empty, column-less frame
and raises a lookup error, modelled as `none`. -/
theorem preprocess_data_recoverable (files : List FileEntry)
    (h : parsedTables files = [] ∨ (loaderState files).common = some []) :
    (combine_common_columns_with_age files).1 = emptyTable ∧
    "No compatible files found." ∈ (combine_common_columns_with_age files).2 ∧
    preprocess_data files = none := by
  have hempty : (combine_common_columns_with_age files).1 = emptyTable := by
    unfold combine_common_columns_with_age
    rcases h with h | h
    · rw [(loaderState_common_none_iff files).2 h]
    · rw [h]; simp
  refine ⟨hempty, ?_, ?_⟩
  · unfold combine_common_columns_with_age
    rcases h with h | h
    · rw [(loaderState_common_none_iff files).2 h]; simp
    · rw [h]; simp
  · unfold preprocess_data
    rw [hempty]
    rfl

/-- C4 counterexample: on an empty directory listing, the loader takes
the recoverable path and hands back an empty table with the diagnostic,
yet `preprocess_data` yields no table at all (the age filter raises). -/
theorem preprocess_data_empty_dir :
    (combine_common_columns_with_age []).1 = emptyTable ∧
    (combine_common_columns_with_age []).2 = ["No compatible files found."] ∧
    preprocess_data [] = none := by decide

/-- Witness for `preprocess_data_recoverable` at the two disjoint-column
files (recoverable path with a nonempty listing). -/
theorem preprocess_data_recoverable_witness :
    (parsedTables disjointFiles = [] ∨ (loaderState disjointFiles).common = some []) ∧
    ((combine_common_columns_with_age disjointFiles).1 = emptyTable ∧
     "No compatible files found." ∈ (combine_common_columns_with_age disjointFiles).2 ∧
     preprocess_data disjointFiles = none) :=
  ⟨Or.inr (by decide), preprocess_data_recoverable disjointFiles (Or.inr (by decide))⟩

/-- `2022.txt`: columns `AGE2, ALCEVER, IRSEX`, one row
(age 5, ALCEVER 1, IRSEX 2). -/
def t2022 : Table :=
  ⟨["AGE2", "ALCEVER", "IRSEX"],
   [[("AGE2", Value.int 5), ("ALCEVER", Value.int 1), ("IRSEX", Value.int 2)]]⟩

/-- `old.txt`: columns `AGE3, ALCEVER, IRSEX`, one row
(age 9, ALCEVER 2, IRSEX 1). -/
def tOld : Table :=
  ⟨["AGE3", "ALCEVER", "IRSEX"],
   [[("AGE3", Value.int 9), ("ALCEVER", Value.int 2), ("IRSEX", Value.int 1)]]⟩

/-- The round-trip scenario directory listing. -/
def scenarioFiles : List FileEntry :=
  [⟨"2022.txt", some t2022⟩, ⟨"old.txt", some tOld⟩]

/-- C9: the full pipeline on the two scenario files renames both age
aliases to `AGE`, keeps exactly the columns `ALCEVER`, `IRSEX`, `AGE`,
`source_file` out of the loader, retains both rows through the age filter
(5 ∈ [4,7] for the recent cohort, 9 ∈ [7,13] for the other cohort) and
through the column/value filter, and derives `year` as `"2022"` for the
first row and missing for the second. -/
theorem scenario_round_trip :
    (combine_common_columns_with_age scenarioFiles).1.cols.toFinset =
      ({"ALCEVER", "IRSEX", "AGE", "source_file"} : Finset String) ∧
    (combine_common_columns_with_age scenarioFiles).1.rows.length = 2 ∧
    ((filter_age (combine_common_columns_with_age scenarioFiles).1).map
       (fun t => t.rows.length) = some 2) ∧
    (preprocess_data scenarioFiles).isSome = true ∧
    (preprocess_data scenarioFiles).map (fun t => t.cols.toFinset) =
      some ({"ALCEVER", "IRSEX", "AGE", "source_file", "year"} : Finset String) ∧
    (preprocess_data scenarioFiles).map
        (fun t => t.rows.map (fun r => getV r "AGE")) =
      some [Value.int 5, Value.int 9] ∧
    (preprocess_data scenarioFiles).map
        (fun t => t.rows.map (fun r => getV r "ALCEVER")) =
      some [Value.int 1, Value.int 2] ∧
    (preprocess_data scenarioFiles).map
        (fun t => t.rows.map (fun r => getV r "IRSEX")) =
      some [Value.int 2, Value.int 1] ∧
    (preprocess_data scenarioFiles).map
        (fun t => t.rows.map (fun r => getV r "source_file")) =
      some [Value.str "2022.txt", Value.str "old.txt"] ∧
    (preprocess_data scenarioFiles).map
        (fun t => t.rows.map (fun r => getV r "year")) =
      some [Value.str "2022", Value.na] := by decide

/-- C6: an unparsable selected file among otherwise-processed files is
skipped and only skipped: the loader's output table over the listing with
the bad file inserted equals the output without it (so every successfully
parsed file's rows still appear exactly as before), and the per-file
failure diagnostic is emitted.  The run is not aborted. -/
theorem combine_skips_unreadable (xs ys : List FileEntry) (bad : FileEntry)
    (hsel : selectFile bad.name = true) (hbad : bad.parsed = none) :
    (combine_common_columns_with_age (xs ++ bad :: ys)).1 =
      (combine_common_columns_with_age (xs ++ ys)).1 ∧
    preprocess_data (xs ++ bad :: ys) = preprocess_data (xs ++ ys) ∧
    ("Failed to read " ++ bad.name) ∈
      (combine_common_columns_with_age (xs ++ bad :: ys)).2 := by
  have h1 : parsedTables (xs ++ bad :: ys) = parsedTables (xs ++ ys) := by
    simp [parsedTables, parsedEntries, List.filter_append, hsel, hbad]
  have hc : (loaderState (xs ++ bad :: ys)).common = (loaderState (xs ++ ys)).common := by
    rw [loaderState_common, loaderState_common, h1]
  have hd : (loaderState (xs ++ bad :: ys)).dfs = (loaderState (xs ++ ys)).dfs := by
    rw [loaderState_dfs, loaderState_dfs, h1]
  have htab : (combine_common_columns_with_age (xs ++ bad :: ys)).1 =
      (combine_common_columns_with_age (xs ++ ys)).1 := by
    unfold combine_common_columns_with_age
    rw [hc, hd]
    cases (loaderState (xs ++ ys)).common with
    | none => rfl
    | some cc => by_cases hnil : cc = [] <;> simp [hnil]
  refine ⟨htab, ?_, ?_⟩
  · unfold preprocess_data
    rw [htab]
  · have hlog : "Failed to read " ++ bad.name ∈ (loaderState (xs ++ bad :: ys)).logs := by
      rw [loaderState_logs]
      simp [failLogs, List.filter_append, hsel, hbad]
    unfold combine_common_columns_with_age
    rcases (loaderState (xs ++ bad :: ys)).common with _ | cc
    · exact List.mem_append_left _ hlog
    · dsimp only
      by_cases hnil : cc = []
      · rw [if_pos hnil]
        exact List.mem_append_left _ hlog
      · rw [if_neg hnil]
        exact hlog

/-- An unreadable directory entry. -/
def badFile : FileEntry := ⟨"broken.txt", none⟩

/-- Witness for `combine_skips_unreadable`: the bad file inserted between
the two scenario files. -/
theorem combine_skips_unreadable_witness :
    (selectFile badFile.name = true ∧ badFile.parsed = none) ∧
    ((combine_common_columns_with_age
        ([⟨"2022.txt", some t2022⟩] ++ badFile :: [⟨"old.txt", some tOld⟩])).1 =
      (combine_common_columns_with_age
        ([⟨"2022.txt", some t2022⟩] ++ [⟨"old.txt", some tOld⟩])).1 ∧
     preprocess_data ([⟨"2022.txt", some t2022⟩] ++ badFile :: [⟨"old.txt", some tOld⟩]) =
       preprocess_data ([⟨"2022.txt", some t2022⟩] ++ [⟨"old.txt", some tOld⟩]) ∧
     ("Failed to read " ++ badFile.name) ∈
       (combine_common_columns_with_age
         ([⟨"2022.txt", some t2022⟩] ++ badFile :: [⟨"old.txt", some tOld⟩])).2) :=
  ⟨⟨by decide, rfl⟩,
   combine_skips_unreadable [⟨"2022.txt", some t2022⟩] [⟨"old.txt", some tOld⟩]
     badFile (by decide) rfl⟩

theorem setColumn_self_mem (t : Table) (c : String) (v : Value) :
    c ∈ (setColumn t c v).cols := by
  show c ∈ (if c ∈ t.cols then t.cols else t.cols ++ [c])
  split
  · assumption
  · exact List.mem_append_right _ (List.mem_singleton.2 rfl)

theorem renameAge_mem_cols (t : Table) (c : String) (h2 : c ≠ "AGE2")
    (h3 : c ≠ "AGE3") (h : c ∈ t.cols) : c ∈ (renameAge t).cols := by
  unfold renameAge
  cases hfind : age_column_candidates.find? (fun c => decide (c ∈ t.cols)) with
  | none => exact h
  | some a =>
      have ha : a = "AGE2" ∨ a = "AGE3" := by
        have := List.mem_of_find?_eq_some hfind
        simpa [age_column_candidates] using this
      have hca : c ≠ a := by
        rcases ha with rfl | rfl
        · exact h2
        · exact h3
      show c ∈ t.cols.map (fun x => if x = a then "AGE" else x)
      exact List.mem_map.2 ⟨c, h, by rw [if_neg hca]⟩

theorem processFile_source_mem (f : FileEntry) :
    "source_file" ∈ (processFile f).cols := by
  unfold processFile
  exact renameAge_mem_cols _ _ (by decide) (by decide)
    (setColumn_self_mem (f.parsed.getD emptyTable) "source_file" (Value.str f.name))

theorem processFile_source_value (f : FileEntry) :
    ∀ r ∈ (processFile f).rows, getV r "source_file" = Value.str f.name := by
  intro r hr
  unfold processFile renameAge at hr
  cases hfind : age_column_candidates.find?
      (fun c => decide (c ∈ (setColumn (f.parsed.getD emptyTable) "source_file"
        (Value.str f.name)).cols)) with
  | none =>
      rw [hfind] at hr
      obtain ⟨r0, _, rfl⟩ := List.mem_map.1 hr
      exact getV_setV_self r0 "source_file" (Value.str f.name)
  | some a =>
      rw [hfind] at hr
      have ha : a = "AGE2" ∨ a = "AGE3" := by
        have := List.mem_of_find?_eq_some hfind
        simpa [age_column_candidates] using this
      obtain ⟨r1, hr1, rfl⟩ := List.mem_map.1 hr
      obtain ⟨r0, _, rfl⟩ := List.mem_map.1 hr1
      rw [getV_rename_ne _ _ _ _ (by rcases ha with rfl | rfl <;> decide)
        (by decide)]
      exact getV_setV_self r0 "source_file" (Value.str f.name)

theorem mem_finalColsList (cc : List String) (c : String) :
    c ∈ finalColsList cc ↔ c ∈ cc ∨ c = "AGE" ∨ c = "source_file" := by
  simp [finalColsList, List.mem_dedup]

theorem colsOf_sub (t : Table) (c : String) (h : c ∈ colsOf t) : c ∈ t.cols := by
  have := List.mem_filter.1 h
  exact List.mem_dedup.1 this.1

theorem mem_colsOf (t : Table) (c : String) (h : c ∈ t.cols)
    (hc : c ≠ "source_file") : c ∈ colsOf t :=
  List.mem_filter.2 ⟨List.mem_dedup.2 h, by simpa using hc⟩

theorem concatTables_cols (ts : List Table) :
    (concatTables ts).cols = (ts.flatMap Table.cols).dedup := rfl

theorem concatTables_rows (ts : List Table) :
    (concatTables ts).rows = ts.flatMap Table.rows := rfl

theorem projectTable_cols (sel : List String) (t : Table) :
    (projectTable sel t).cols = sel := rfl

theorem projectTable_rows (sel : List String) (t : Table) :
    (projectTable sel t).rows = t.rows.map (projectRow sel) := rfl

theorem combine_cols_mem (files : List FileEntry) (cc : List String)
    (hcc : (loaderState files).common = some cc) (hne : cc ≠ []) (c : String) :
    c ∈ (combine_common_columns_with_age files).1.cols ↔
      ∃ t ∈ parsedTables files, c ∈ finalColsList cc ∧ c ∈ t.cols := by
  unfold combine_common_columns_with_age
  rw [hcc]
  dsimp only
  rw [if_neg hne]
  show c ∈ (concatTables _).cols ↔ _
  rw [concatTables_cols, List.mem_dedup, List.mem_flatMap]
  constructor
  · rintro ⟨u, hu, hcu⟩
    obtain ⟨t, ht, rfl⟩ := List.mem_map.1 hu
    rw [projectTable_cols] at hcu
    have := List.mem_filter.1 hcu
    rw [loaderState_dfs] at ht
    exact ⟨t, ht, this.1, by simpa using this.2⟩
  · rintro ⟨t, ht, hfin, hct⟩
    refine ⟨projectTable ((finalColsList cc).filter (fun c => c ∈ t.cols)) t, ?_, ?_⟩
    · exact List.mem_map.2 ⟨t, by rw [loaderState_dfs]; exact ht, rfl⟩
    · exact List.mem_filter.2 ⟨hfin, by simpa using hct⟩

/-- C7: when the loader succeeds, a column is in its output exactly when
it is common to all processed frames, or it is the canonical age column
`AGE` or the provenance column `source_file` and some processed frame
carries it: the output column set is the common intersection, union `AGE`
when present in any frame, union `source_file` when present in any frame. -/
theorem combine_output_columns (files : List FileEntry) (cc : List String)
    (hcc : (loaderState files).common = some cc) (hne : cc ≠ []) :
    ∀ c, c ∈ (combine_common_columns_with_age files).1.cols ↔
      ((∀ t ∈ parsedTables files, c ∈ t.cols) ∨
       ((c = "AGE" ∨ c = "source_file") ∧ ∃ t ∈ parsedTables files, c ∈ t.cols)) := by
  obtain ⟨hnil, hmem⟩ := loaderState_common_mem files cc hcc
  intro c
  rw [combine_cols_mem files cc hcc hne c]
  constructor
  · rintro ⟨t, ht, hfin, hct⟩
    rcases (mem_finalColsList cc c).1 hfin with h' | h' | h'
    · exact Or.inl (fun t' ht' => colsOf_sub t' c ((hmem c).1 h' t' ht'))
    · exact Or.inr ⟨Or.inl h', t, ht, hct⟩
    · exact Or.inr ⟨Or.inr h', t, ht, hct⟩
  · rintro (hall | ⟨hcase, t, ht, hct⟩)
    · obtain ⟨t0, ht0⟩ := List.exists_mem_of_ne_nil _ hnil
      by_cases hsf : c = "source_file"
      · exact ⟨t0, ht0, (mem_finalColsList cc c).2 (Or.inr (Or.inr hsf)), hall t0 ht0⟩
      · have hcc' : c ∈ cc := (hmem c).2 (fun t' ht' => mem_colsOf t' c (hall t' ht') hsf)
        exact ⟨t0, ht0, (mem_finalColsList cc c).2 (Or.inl hcc'), hall t0 ht0⟩
    · exact ⟨t, ht, (mem_finalColsList cc c).2 (Or.inr hcase), hct⟩

/-- Witness for `combine_output_columns` at the two scenario files. -/
theorem combine_output_columns_witness :
    ((loaderState scenarioFiles).common = some ["AGE", "ALCEVER", "IRSEX"] ∧
      (["AGE", "ALCEVER", "IRSEX"] : List String) ≠ []) ∧
    ∀ c ∈ (["ALCEVER", "IRSEX", "AGE", "source_file", "FOO"] : List String),
      (c ∈ (combine_common_columns_with_age scenarioFiles).1.cols ↔
        ((∀ t ∈ parsedTables scenarioFiles, c ∈ t.cols) ∨
         ((c = "AGE" ∨ c = "source_file") ∧ ∃ t ∈ parsedTables scenarioFiles, c ∈ t.cols))) :=
  ⟨⟨by decide, by decide⟩, fun c _ =>
    combine_output_columns scenarioFiles ["AGE", "ALCEVER", "IRSEX"]
      (by decide) (by decide) c⟩

/-- C8: a combined row's `source_file` value is exactly the name of the
selected, successfully parsed file it came from, and no later stage
reassigns it: the age filter passes surviving rows through unchanged, and
the column/value filter preserves the `source_file` value from the source
row of every surviving row. -/
theorem provenance_stable :
    (∀ files : List FileEntry, ∀ r ∈ (combine_common_columns_with_age files).1.rows,
       ∃ f ∈ files, selectFile f.name = true ∧ f.parsed.isSome = true ∧
         getV r "source_file" = Value.str f.name) ∧
    (∀ t t' : Table, filter_age t = some t' → ∀ r ∈ t'.rows, r ∈ t.rows) ∧
    (∀ t t' : Table, filter_cols t = some t' →
       ∀ r' ∈ t'.rows, ∃ r ∈ t.rows, getV r' "source_file" = getV r "source_file") := by
  refine ⟨?_, ?_, ?_⟩
  · intro files r hr
    revert hr
    unfold combine_common_columns_with_age
    rcases hcc : (loaderState files).common with _ | cc
    · intro hr
      exact absurd hr (by simp [emptyTable])
    · dsimp only
      by_cases hnil : cc = []
      · rw [if_pos hnil]
        intro hr
        exact absurd hr (by simp [emptyTable])
      · rw [if_neg hnil]
        intro hr
        dsimp only at hr
        rw [concatTables_rows, List.mem_flatMap] at hr
        obtain ⟨u, hu, hru⟩ := hr
        obtain ⟨t, ht, rfl⟩ := List.mem_map.1 hu
        rw [projectTable_rows] at hru
        obtain ⟨r0, hr0, rfl⟩ := List.mem_map.1 hru
        rw [loaderState_dfs] at ht
        unfold parsedTables at ht
        obtain ⟨f, hf, rfl⟩ := List.mem_map.1 ht
        unfold parsedEntries at hf
        have hf' := List.mem_filter.1 hf
        refine ⟨f, hf'.1, (Bool.and_eq_true_iff.1 hf'.2).1,
          (Bool.and_eq_true_iff.1 hf'.2).2, ?_⟩
        have hsf : "source_file" ∈
            (finalColsList cc).filter (fun c => c ∈ (processFile f).cols) :=
          List.mem_filter.2 ⟨(mem_finalColsList cc _).2 (Or.inr (Or.inr rfl)),
            by simpa using processFile_source_mem f⟩
        rw [getV_projectRow _ _ _ hsf]
        exact processFile_source_value f r0 hr0
  · intro t t' h r hr
    unfold filter_age at h
    split at h
    case isFalse => exact absurd h (by simp)
    case isTrue =>
      injection h with h
      subst h
      rcases List.mem_append.1 hr with h' | h'
      · exact List.mem_of_mem_filter h'
      · exact List.mem_of_mem_filter h'
  · intro t t' h r' hr'
    unfold filter_cols at h
    split at h
    case isFalse => exact absurd h (by simp)
    case isTrue hcond =>
      injection h with h
      subst h
      have hr'' := List.mem_of_mem_filter hr'
      obtain ⟨r, hr, rfl⟩ := List.mem_map.1 hr''
      exact ⟨r, hr, getV_colsTransform_ne _ _ _ (by decide) hcond.1⟩
